import Mathlib

/-!
Verification of the PS/2 keyboard host driver (PS2KeyboardHost).

This file gives a shallow embedding, in Lean 4, of the parts of the driver
relevant to the stated properties:

* the lock-free output buffer `KeyboardOutputBuffer` (the multi-byte
  ring-buffer template from `ps2_KeyboardOutputBuffer.h`), with its
  `push`, `pop`, `peek` and `clear` operations;
* the per-clock-edge frame receiver `Keyboard::readInterruptHandler`;
* the foreground entry point `Keyboard::readScanCode`, together with the
  pieces of `sendNack`/`sendByte` it invokes;
* the wraparound comparison of the foreground wait loop in
  `Keyboard::expectResponse`;
* the argument byte computed by `Keyboard::setTypematicRateAndDelay`.

Machine integers are modelled as `Nat` with explicit `% 2 ^ w` at the points
where the C++ code can overflow (`uint8_t` increment of the ring-buffer head,
`uint32_t` addition of the 200 microsecond deadline, `unsigned long` addition
of the millisecond timeout).

The enumeration `KeyboardOutput` (header `ps2_KeyboardOutput.h`) is not part
of the provided sources; following the specification it is modelled as a
tagged variant: a distinguished "none" sentinel, a distinguished "garbled"
sentinel, and raw 8-bit values.  The well-known protocol replies
(self-test-passed 0xAA, self-test-failed 0xFC, ...) are raw byte values.
-/

namespace Ps2

/-- Modelled from the spec: `ps2_KeyboardOutput.h` is not among the provided
sources.  The spec describes the received value as "an 8-bit value plus a
distinguished none sentinel meaning queue empty and a distinguished garbled
sentinel", and recommends representing it as a tagged variant; the named
protocol replies (ACK 0xFA, self-test-passed 0xAA, self-test-failed 0xFC,
echo 0xEE, ...) share the 8-bit namespace with ordinary scan codes. -/
inductive KeyboardOutput where
  | none : KeyboardOutput
  | garbled : KeyboardOutput
  | byte : Nat → KeyboardOutput
deriving DecidableEq

/-- The `Parity` enumeration of `ps2_Parity.h`: `odd = 0`, `even = 1`. -/
inductive Parity where
  | odd : Parity
  | even : Parity
deriving DecidableEq

/-- The `operator^=(Parity, int bit)` of `ps2_Parity.h`: flip the parity
when the added bit is set, keep it otherwise. -/
def Parity.addBit (a : Parity) (bit : Bool) : Parity :=
  if bit then (if a = Parity.odd then Parity.even else Parity.odd) else a

/-- The `(Parity)dataPinValue` cast used by the parity check of the read
interrupt handler: pin value 0 is `odd`, pin value 1 is `even`. -/
def Parity.ofPin (dataPinValue : Bool) : Parity :=
  if dataPinValue then Parity.even else Parity.odd

/-- State of the multi-byte `KeyboardOutputBuffer<Size>` template.  `size`
is the compile-time `Size` parameter (a `uint8_t`, so `size ≤ 255` for any
C++ instantiation); `head` and `tail` are the `uint8_t` index fields, with
`EmptyMarker = 0xff` stored in `head` denoting the empty buffer.  The slot
array is modelled as a total function from indices to stored values (the
C++ array is uninitialised at construction, so the initial slot contents
are arbitrary).  `overflowCount` counts the `diagnostics->bufferOverflow()`
events recorded by `push`. -/
structure KeyboardOutputBuffer where
  size : Nat
  head : Nat
  tail : Nat
  slots : Nat → KeyboardOutput
  overflowCount : Nat

/-- The `EmptyMarker` constant (0xff). -/
def EmptyMarker : Nat := 255

/-- The `KeyboardOutputBuffer` constructor: `head = EmptyMarker`,
`tail = 0`; the slot array starts with arbitrary (uninitialised) contents
`slots0`. -/
def KeyboardOutputBuffer.initial (size : Nat) (slots0 : Nat → KeyboardOutput) :
    KeyboardOutputBuffer :=
  { size := size, head := EmptyMarker, tail := 0, slots := slots0, overflowCount := 0 }

/-- `KeyboardOutputBuffer::push`, verbatim from the source:
`nextTail = (tail + 1) % Size`; an empty buffer gets `head = tail`; a full
buffer (`head == tail`) records an overflow and executes `++head` — a plain
`uint8_t` increment, hence `% 256`, with no reduction modulo `Size`; then
`buffer[tail] = value; tail = nextTail`. -/
def KeyboardOutputBuffer.push (s : KeyboardOutputBuffer) (valueAtTop : KeyboardOutput) :
    KeyboardOutputBuffer :=
  let nextTail := (s.tail + 1) % s.size
  let s1 :=
    if s.head = EmptyMarker then
      { s with head := s.tail }
    else if s.head = s.tail then
      { s with overflowCount := s.overflowCount + 1, head := (s.head + 1) % 256 }
    else s
  { s1 with
      slots := fun j => if j = s.tail then valueAtTop else s1.slots j,
      tail := nextTail }

/-- `KeyboardOutputBuffer::pop`: return `none` when `head` carries the empty
marker; otherwise return `buffer[head]` and advance `head` by one modulo
`Size`, collapsing to the empty marker when it reaches `tail`.  (When `head`
is outside the array — reachable through the unreduced `++head` of `push` —
the C++ read `buffer[head]` is out of bounds; the model reads the total slot
function.) -/
def KeyboardOutputBuffer.pop (s : KeyboardOutputBuffer) :
    KeyboardOutput × KeyboardOutputBuffer :=
  if s.head = EmptyMarker then
    (KeyboardOutput.none, s)
  else
    let valueAtTop := s.slots s.head
    let h := (s.head + 1) % s.size
    (valueAtTop, { s with head := if h = s.tail then EmptyMarker else h })

/-- `KeyboardOutputBuffer::peek`. -/
def KeyboardOutputBuffer.peek (s : KeyboardOutputBuffer) : KeyboardOutput :=
  if s.head = EmptyMarker then KeyboardOutput.none else s.slots s.head

/-- `KeyboardOutputBuffer::clear`: reset `head` to the empty marker. -/
def KeyboardOutputBuffer.clear (s : KeyboardOutputBuffer) : KeyboardOutputBuffer :=
  { s with head := EmptyMarker }

/-- Push a whole sequence of values, first element first. -/
def KeyboardOutputBuffer.pushAll (s : KeyboardOutputBuffer)
    (vs : List KeyboardOutput) : KeyboardOutputBuffer :=
  vs.foldl (fun s v => s.push v) s

/-- Perform `n` successive pops, collecting the returned values in order. -/
def KeyboardOutputBuffer.popList (s : KeyboardOutputBuffer) :
    Nat → List KeyboardOutput
  | 0 => []
  | n + 1 =>
    let r := s.pop
    r.1 :: r.2.popList n

/-- The condition under which `push` takes its overflow branch: the buffer
is non-empty and `head == tail` (full). -/
def KeyboardOutputBuffer.isFull (s : KeyboardOutputBuffer) : Prop :=
  s.head ≠ EmptyMarker ∧ s.head = s.tail

instance (s : KeyboardOutputBuffer) : Decidable s.isFull := by
  unfold KeyboardOutputBuffer.isFull; infer_instance

/-- True when some push of the sequence `vs`, performed in order starting
from buffer state `s`, encounters a full buffer. -/
def KeyboardOutputBuffer.hitsOverflow (s : KeyboardOutputBuffer) :
    List KeyboardOutput → Bool
  | [] => false
  | v :: vs => decide s.isFull || (s.push v).hitsOverflow vs

/-- The receiver/foreground state of `ps2::Keyboard` (the fields of the class
that the embedded operations touch), together with traces for the
diagnostics events and for the bytes handed to the direction switcher.
`ioByte`, `bitCounter` are `uint8_t`; the two timestamps are `uint32_t`. -/
structure KbState where
  ioByte : Nat
  bitCounter : Nat
  failureTimeMicroseconds : Nat
  lastReadInterruptMicroseconds : Nat
  parity : Parity
  receivedHasFramingError : Bool
  inputBuffer : KeyboardOutputBuffer
  diagPacketDidNotStartWithZero : Nat
  diagParityError : Nat
  diagPacketDidNotEndWithOne : Nat
  diagClockLineGlitch : List Nat
  diagStartupFailure : Nat
  diagReceivedBytes : List Nat
  diagSentBytes : List Nat
  sentBytes : List Nat

/-- `Keyboard::readInterruptHandler`: one falling clock edge.  `dataPinValue`
is the sampled data pin, `now` the `micros()` reading taken on entry and
stored into `lastReadInterruptMicroseconds`.  The `switch (bitCounter)` has
cases 0 (start bit), 1..8 (data bits, LSB first), 9 (parity bit) and 10
(stop bit; push the accumulated byte when no framing error is latched, then
reset counter and accumulator); any other counter value matches no case and
leaves the rest of the state untouched. -/
def readInterruptHandler (dataPinValue : Bool) (now : Nat) (s : KbState) : KbState :=
  let s := { s with lastReadInterruptMicroseconds := now }
  match s.bitCounter with
  | 0 =>
    if dataPinValue = false then
      { s with receivedHasFramingError := false,
               bitCounter := s.bitCounter + 1, parity := Parity.even }
    else
      { s with diagPacketDidNotStartWithZero := s.diagPacketDidNotStartWithZero + 1,
               receivedHasFramingError := true,
               failureTimeMicroseconds := s.lastReadInterruptMicroseconds,
               bitCounter := s.bitCounter + 1, parity := Parity.even }
  | 1 | 2 | 3 | 4 | 5 | 6 | 7 | 8 =>
    if dataPinValue then
      { s with ioByte := (s.ioByte ||| (1 <<< (s.bitCounter - 1))) % 256,
               parity := s.parity.addBit true,
               bitCounter := s.bitCounter + 1 }
    else
      { s with bitCounter := s.bitCounter + 1 }
  | 9 =>
    if s.parity ≠ Parity.ofPin dataPinValue then
      { s with diagParityError := s.diagParityError + 1,
               receivedHasFramingError := true,
               failureTimeMicroseconds := s.lastReadInterruptMicroseconds,
               bitCounter := s.bitCounter + 1 }
    else
      { s with bitCounter := s.bitCounter + 1 }
  | 10 =>
    let s :=
      if dataPinValue = false then
        { s with diagPacketDidNotEndWithOne := s.diagPacketDidNotEndWithOne + 1,
                 receivedHasFramingError := true,
                 failureTimeMicroseconds := s.lastReadInterruptMicroseconds }
      else s
    let s :=
      if s.receivedHasFramingError = false then
        { s with diagReceivedBytes := s.ioByte :: s.diagReceivedBytes,
                 inputBuffer := s.inputBuffer.push (KeyboardOutput.byte s.ioByte) }
      else s
    { s with bitCounter := 0, ioByte := 0 }
  | _ => s

/-- Run the read interrupt handler over a sequence of clock edges, each a
pair (sampled data pin value, `micros()` reading). -/
def runEdges (s : KbState) (edges : List (Bool × Nat)) : KbState :=
  edges.foldl (fun s e => readInterruptHandler e.1 e.2 s) s

/-- `Keyboard::enableReadInterrupts` (minus the `attachInterrupt` platform
call): clear the framing-error flag, reset counter, accumulator and parity,
clear the input buffer. -/
def enableReadInterrupts (s : KbState) : KbState :=
  { s with receivedHasFramingError := false, bitCounter := 0, ioByte := 0,
           parity := Parity.even, inputBuffer := s.inputBuffer.clear }

/-- `Keyboard::sendByte` (minus the pin and interrupt platform calls): the
direction switcher loads the transmitter state — framing error cleared,
input buffer cleared, bit counter 0, parity even, `ioByte` holding the byte
to send.  The byte handed to the switcher is recorded in the `sentBytes`
trace. -/
def sendByte (byte1 : Nat) (s : KbState) : KbState :=
  { s with receivedHasFramingError := false,
           inputBuffer := s.inputBuffer.clear,
           bitCounter := 0,
           parity := Parity.even,
           ioByte := byte1 % 256,
           sentBytes := byte1 % 256 :: s.sentBytes }

/-- `Keyboard::sendNack`: record `diagnostics->sentByte(resend)` and send
the resend command 0xFE through the direction switcher. -/
def sendNack (s : KbState) : KbState :=
  sendByte 0xfe { s with diagSentBytes := 0xfe :: s.diagSentBytes }

/-- `Keyboard::readScanCode`.  `nowMicros` is the `micros()` reading taken
at the `failureTimeMicroseconds + 200 > micros()` comparison; the addition
is `uint32_t` arithmetic, hence `% 2 ^ 32`. -/
def readScanCode (nowMicros : Nat) (s : KbState) : KeyboardOutput × KbState :=
  let r := s.inputBuffer.pop
  let code := r.1
  let s := { s with inputBuffer := r.2 }
  if code = KeyboardOutput.none ∧ s.receivedHasFramingError then
    if (s.failureTimeMicroseconds + 200) % 4294967296 > nowMicros then
      (KeyboardOutput.none, s)
    else if s.bitCounter > 3 then
      (KeyboardOutput.garbled, sendNack s)
    else
      (KeyboardOutput.garbled,
        { s with diagClockLineGlitch := s.bitCounter :: s.diagClockLineGlitch,
                 receivedHasFramingError := false,
                 bitCounter := 0, ioByte := 0, parity := Parity.even })
  else if code = KeyboardOutput.byte 0xaa then
    let r2 := s.inputBuffer.pop
    (r2.1, { s with inputBuffer := r2.2 })
  else if code = KeyboardOutput.byte 0xfc then
    let r2 := s.inputBuffer.pop
    (r2.1, { s with diagStartupFailure := s.diagStartupFailure + 1,
                    inputBuffer := r2.2 })
  else
    (code, s)

/-- The continuation condition of the `do ... while` wait loop in
`Keyboard::expectResponse`, verbatim from the source:
`nowMilliseconds < stopMilliseconds || (stopMilliseconds < startMilliseconds && startMilliseconds <= nowMilliseconds)`. -/
def expectResponseContinues
    (startMilliseconds stopMilliseconds nowMilliseconds : Nat) : Bool :=
  decide (nowMilliseconds < stopMilliseconds) ||
    (decide (stopMilliseconds < startMilliseconds) &&
      decide (startMilliseconds ≤ nowMilliseconds))

/-- The `stopMilliseconds = startMilliseconds + timeoutInMilliseconds`
computation of `Keyboard::expectResponse`, in the 32-bit `unsigned long`
arithmetic of the target. -/
def stopMillisOf (startMilliseconds timeoutInMilliseconds : Nat) : Nat :=
  (startMilliseconds + timeoutInMilliseconds) % 4294967296

/-- The argument byte computed by `Keyboard::setTypematicRateAndDelay`:
`byte combined = (byte)rate | (((byte)startDelay) << 4);`. -/
def typematicCombined (rate startDelay : Nat) : Nat :=
  (rate ||| (startDelay <<< 4)) % 256

/-- The byte sequence `Keyboard::setTypematicRateAndDelay` hands to
`sendCommand`: the set-typematic command 0xF3 followed by the combined
argument byte. -/
def setTypematicRateAndDelayBytes (rate startDelay : Nat) : List Nat :=
  [0xf3, typematicCombined rate startDelay]


/-! Ring-buffer abstraction: well-formedness, abstract contents, and the
behaviour of `push` and `pop` on well-formed states. -/

/-- Reduction of `x % N` to a subtraction when `x < 2 * N`; lets `omega`
finish goals about the index arithmetic of the ring buffer, whose modulus
is symbolic. -/
theorem mod_two_mul (x N : Nat) (h : x < 2 * N) :
    x % N = if N ≤ x then x - N else x := by
  split
  · rw [Nat.mod_eq_sub_mod (by omega)]
    exact Nat.mod_eq_of_lt (by omega)
  · exact Nat.mod_eq_of_lt (by omega)

/-- The number of buffered elements as a function of the index fields:
0 when `head` carries the empty marker, otherwise the cyclic distance
from `head` to `tail` computed the way `push`/`pop` maintain it (equal to
`size` when the buffer is full, i.e. `head = tail`). -/
def lenOf (size head tail : Nat) : Nat :=
  if head = EmptyMarker then 0 else ((tail + size - head - 1) % size) + 1

/-- The abstract contents determined by the index fields and the slot
array: the `lenOf` elements starting at `head`, read cyclically. -/
def contentsOf (size head tail : Nat) (slots : Nat → KeyboardOutput) :
    List KeyboardOutput :=
  (List.range (lenOf size head tail)).map (fun i => slots ((head + i) % size))

/-- Number of buffered elements of a buffer state. -/
def KeyboardOutputBuffer.bufLen (s : KeyboardOutputBuffer) : Nat :=
  lenOf s.size s.head s.tail

/-- Abstract contents of a buffer state, oldest element first. -/
def KeyboardOutputBuffer.contents (s : KeyboardOutputBuffer) : List KeyboardOutput :=
  contentsOf s.size s.head s.tail s.slots

/-- Well-formedness of a multi-byte buffer state: the size is a valid
`uint8_t` template argument of the multi-byte specialisation, `tail` is a
valid index, and `head` is either the empty marker or a valid index. -/
def KeyboardOutputBuffer.Wf (s : KeyboardOutputBuffer) : Prop :=
  2 ≤ s.size ∧ s.size ≤ 255 ∧ s.tail < s.size ∧
    (s.head = EmptyMarker ∨ s.head < s.size)

/-- Closed form of `lenOf` on valid indices. -/
theorem lenOf_closed (size head tail : Nat) (h2 : 2 ≤ size) (hsz : size ≤ 255)
    (hh : head < size) (ht : tail < size) :
    lenOf size head tail =
      if head = tail then size
      else if head < tail then tail - head else tail + size - head := by
  have hne : ¬ head = EmptyMarker := by simp only [EmptyMarker]; omega
  simp only [lenOf, if_neg hne]
  rw [mod_two_mul _ size (by omega)]
  split_ifs <;> omega

theorem lenOf_pos (size head tail : Nat) (h2 : 2 ≤ size) (hsz : size ≤ 255)
    (hh : head < size) (ht : tail < size) :
    1 ≤ lenOf size head tail ∧ lenOf size head tail ≤ size := by
  rw [lenOf_closed size head tail h2 hsz hh ht]
  split_ifs <;> omega

/-- Unfolding of `contentsOf` at a positive length: the element at `head`
followed by the remaining elements shifted by one. -/
theorem contentsOf_cons (size head tail : Nat) (slots : Nat → KeyboardOutput)
    (h2 : 2 ≤ size) (hsz : size ≤ 255) (hh : head < size) (ht : tail < size) :
    contentsOf size head tail slots =
      slots head :: (List.range (lenOf size head tail - 1)).map
        (fun i => slots ((head + (i + 1)) % size)) := by
  obtain ⟨hL1, _⟩ := lenOf_pos size head tail h2 hsz hh ht
  obtain ⟨L, hL⟩ : ∃ L, lenOf size head tail = L + 1 :=
    ⟨lenOf size head tail - 1, by omega⟩
  simp only [contentsOf, hL, Nat.add_sub_cancel, List.range_succ_eq_map,
    List.map_cons, List.map_map]
  rw [Nat.add_zero, Nat.mod_eq_of_lt hh]
  rfl

/-- The tail index is the cyclic successor of the last buffered element. -/
theorem head_add_lenOf (size head tail : Nat) (h2 : 2 ≤ size) (hsz : size ≤ 255)
    (hh : head < size) (ht : tail < size) :
    (head + lenOf size head tail) % size = tail := by
  rw [lenOf_closed size head tail h2 hsz hh ht]
  rw [mod_two_mul _ size (by split_ifs <;> omega)]
  split_ifs <;> omega

/-- Appending at `tail` leaves the buffered positions untouched: an offset
strictly below the length never lands on `tail`. -/
theorem add_mod_ne_tail (size head tail i : Nat) (h2 : 2 ≤ size) (hsz : size ≤ 255)
    (hh : head < size) (ht : tail < size) (hne : head ≠ tail)
    (hi : i < lenOf size head tail) : (head + i) % size ≠ tail := by
  rw [lenOf_closed size head tail h2 hsz hh ht] at hi
  rw [mod_two_mul _ size (by split_ifs at hi <;> omega)]
  split_ifs at hi ⊢ <;> omega

/-- Advancing `tail` cyclically grows the length by one (non-full case). -/
theorem lenOf_push_step (size head tail : Nat) (h2 : 2 ≤ size) (hsz : size ≤ 255)
    (hh : head < size) (ht : tail < size) (hne : head ≠ tail) :
    lenOf size head ((tail + 1) % size) = lenOf size head tail + 1 := by
  rcases Nat.lt_or_ge (tail + 1) size with hlt | hge
  · rw [Nat.mod_eq_of_lt hlt, lenOf_closed size head (tail + 1) h2 hsz hh hlt,
      lenOf_closed size head tail h2 hsz hh ht]
    split_ifs <;> omega
  · have hts : tail + 1 = size := by omega
    have : (tail + 1) % size = 0 := by rw [hts, Nat.mod_self]
    rw [this, lenOf_closed size head 0 h2 hsz hh (by omega),
      lenOf_closed size head tail h2 hsz hh ht]
    split_ifs <;> omega

/-- Effect of `push` on a well-formed, non-full buffer: the new value is
appended to the abstract contents, well-formedness is preserved, and no
overflow event is recorded. -/
theorem KeyboardOutputBuffer.push_spec (s : KeyboardOutputBuffer) (v : KeyboardOutput)
    (hwf : s.Wf) (hnf : ¬ s.isFull) :
    (s.push v).Wf ∧ (s.push v).size = s.size ∧
      (s.push v).overflowCount = s.overflowCount ∧
      (s.push v).contents = s.contents ++ [v] := by
  obtain ⟨h2, h255, ht, hh⟩ := hwf
  have htail' : (s.tail + 1) % s.size < s.size := Nat.mod_lt _ (by omega)
  by_cases he : s.head = EmptyMarker
  · -- the buffer was empty: head := tail, one element afterwards
    have hpush : s.push v =
        { s with head := s.tail,
                 slots := fun j => if j = s.tail then v else s.slots j,
                 tail := (s.tail + 1) % s.size } := by
      simp [push, he]
    rw [hpush]
    refine ⟨⟨h2, h255, htail', Or.inr ht⟩, rfl, rfl, ?_⟩
    have hc0 : s.contents = [] := by
      simp [contents, contentsOf, lenOf, he]
    have hlen1 : lenOf s.size s.tail ((s.tail + 1) % s.size) = 1 := by
      rcases Nat.lt_or_ge (s.tail + 1) s.size with hlt | hge
      · rw [Nat.mod_eq_of_lt hlt, lenOf_closed s.size s.tail (s.tail + 1) h2 h255 ht hlt]
        split_ifs <;> omega
      · have hts : (s.tail + 1) % s.size = 0 := by
          have : s.tail + 1 = s.size := by omega
          rw [this, Nat.mod_self]
        rw [hts, lenOf_closed s.size s.tail 0 h2 h255 ht (by omega)]
        split_ifs <;> omega
    rw [hc0, List.nil_append]
    simp only [contents, contentsOf]
    rw [hlen1, show List.range 1 = [0] from rfl]
    simp only [List.map_cons, List.map_nil]
    rw [Nat.add_zero, Nat.mod_eq_of_lt ht]
    simp
  · -- the buffer was neither empty nor full: head stays, tail advances
    have hhlt : s.head < s.size := hh.resolve_left he
    have hht : s.head ≠ s.tail := fun hcontra => hnf ⟨he, hcontra⟩
    have hpush : s.push v =
        { s with slots := fun j => if j = s.tail then v else s.slots j,
                 tail := (s.tail + 1) % s.size } := by
      simp [push, he, hht]
    rw [hpush]
    refine ⟨⟨h2, h255, htail', Or.inr hhlt⟩, rfl, rfl, ?_⟩
    have hkey := head_add_lenOf s.size s.head s.tail h2 h255 hhlt ht
    simp only [contents, contentsOf]
    rw [lenOf_push_step s.size s.head s.tail h2 h255 hhlt ht hht]
    rw [List.range_succ, List.map_append, List.map_singleton]
    congr 1
    · apply List.map_congr_left
      intro i hi
      rw [List.mem_range] at hi
      have hnet := add_mod_ne_tail s.size s.head s.tail i h2 h255 hhlt ht hht hi
      simp [if_neg hnet]
    · rw [hkey]
      simp

/-- Effect of `pop` on a well-formed non-empty buffer: the oldest element is
returned and removed from the abstract contents; well-formedness, the size,
the tail and the slot array are preserved. -/
theorem KeyboardOutputBuffer.pop_spec (s : KeyboardOutputBuffer)
    (hwf : s.Wf) (hne : s.head ≠ EmptyMarker) :
    (s.pop).2.Wf ∧ (s.pop).2.size = s.size ∧
      s.contents = (s.pop).1 :: (s.pop).2.contents := by
  obtain ⟨h2, h255, ht, hh⟩ := hwf
  have hhlt : s.head < s.size := hh.resolve_left hne
  have hfirst := contentsOf_cons s.size s.head s.tail s.slots h2 h255 hhlt ht
  have hpop : s.pop = (s.slots s.head,
      { s with head := if (s.head + 1) % s.size = s.tail then EmptyMarker
                       else (s.head + 1) % s.size }) := by
    simp [pop, hne]
  by_cases hemp : (s.head + 1) % s.size = s.tail
  · -- a single element was buffered: popping empties the buffer
    have hL1 : lenOf s.size s.head s.tail = 1 := by
      rcases Nat.lt_or_ge (s.head + 1) s.size with hlt | hge
      · rw [Nat.mod_eq_of_lt hlt] at hemp
        rw [lenOf_closed s.size s.head s.tail h2 h255 hhlt ht]
        split_ifs <;> omega
      · have hhs : s.head + 1 = s.size := by omega
        have h0 : (s.head + 1) % s.size = 0 := by rw [hhs, Nat.mod_self]
        rw [h0] at hemp
        rw [lenOf_closed s.size s.head s.tail h2 h255 hhlt ht]
        split_ifs <;> omega
    rw [hpop, if_pos hemp]
    refine ⟨⟨h2, h255, ht, Or.inl rfl⟩, rfl, ?_⟩
    simp only [contents, contentsOf] at hfirst ⊢
    rw [hfirst, hL1]
    simp [lenOf]
  · -- more than one element: head advances cyclically
    have hh2lt : (s.head + 1) % s.size < s.size := Nat.mod_lt _ (by omega)
    rw [hpop, if_neg hemp]
    refine ⟨⟨h2, h255, ht, Or.inr hh2lt⟩, rfl, ?_⟩
    have hL2 : lenOf s.size ((s.head + 1) % s.size) s.tail =
        lenOf s.size s.head s.tail - 1 := by
      rcases Nat.lt_or_ge (s.head + 1) s.size with hlt | hge
      · rw [Nat.mod_eq_of_lt hlt] at hemp ⊢
        rw [lenOf_closed s.size (s.head + 1) s.tail h2 h255 hlt ht,
          lenOf_closed s.size s.head s.tail h2 h255 hhlt ht]
        split_ifs <;> omega
      · have hhs : s.head + 1 = s.size := by omega
        have h0 : (s.head + 1) % s.size = 0 := by rw [hhs, Nat.mod_self]
        rw [h0] at hemp ⊢
        rw [lenOf_closed s.size 0 s.tail h2 h255 (by omega) ht,
          lenOf_closed s.size s.head s.tail h2 h255 hhlt ht]
        split_ifs <;> omega
    simp only [contents, contentsOf] at hfirst ⊢
    rw [hfirst, hL2]
    simp only [List.cons.injEq, true_and]
    apply List.map_congr_left
    intro i _
    rw [Nat.mod_add_mod, Nat.add_assoc, Nat.add_comm 1 i]

theorem KeyboardOutputBuffer.initial_wf (size : Nat) (slots0 : Nat → KeyboardOutput)
    (h2 : 2 ≤ size) (hsz : size ≤ 255) :
    (KeyboardOutputBuffer.initial size slots0).Wf ∧
      (KeyboardOutputBuffer.initial size slots0).contents = [] := by
  refine ⟨⟨h2, hsz, by simpa [initial] using (by omega : 0 < size), Or.inl rfl⟩, ?_⟩
  simp [initial, contents, contentsOf, lenOf]

theorem KeyboardOutputBuffer.contents_eq_nil (s : KeyboardOutputBuffer) (hwf : s.Wf)
    (h : s.contents = []) : s.head = EmptyMarker := by
  obtain ⟨h2, h255, ht, hh⟩ := hwf
  rcases hh with hh | hh
  · exact hh
  · exfalso
    obtain ⟨hL1, _⟩ := lenOf_pos s.size s.head s.tail h2 h255 hh ht
    have : s.contents.length = lenOf s.size s.head s.tail := by
      simp [contents, contentsOf]
    rw [h] at this
    simp at this
    omega

theorem KeyboardOutputBuffer.pushAll_spec (vs : List KeyboardOutput) :
    ∀ s : KeyboardOutputBuffer, s.Wf → s.hitsOverflow vs = false →
      (s.pushAll vs).Wf ∧ (s.pushAll vs).contents = s.contents ++ vs := by
  induction vs with
  | nil => intro s hwf _; simpa [pushAll] using hwf
  | cons v vs ih =>
    intro s hwf hov
    simp only [hitsOverflow, Bool.or_eq_false_iff, decide_eq_false_iff_not] at hov
    obtain ⟨hwf', _, _, hc⟩ := s.push_spec v hwf hov.1
    obtain ⟨hwfall, hcall⟩ := ih (s.push v) hwf' hov.2
    refine ⟨by simpa [pushAll] using hwfall, ?_⟩
    simp only [pushAll, List.foldl_cons] at hcall ⊢
    rw [hcall, hc, List.append_assoc, List.singleton_append]

theorem KeyboardOutputBuffer.popList_empty (s : KeyboardOutputBuffer)
    (h : s.head = EmptyMarker) :
    ∀ k, s.popList k = List.replicate k KeyboardOutput.none := by
  intro k
  induction k with
  | zero => rfl
  | succ k ih =>
    simp only [popList, pop, if_pos h, List.replicate_succ]
    exact congrArg _ ih

theorem KeyboardOutputBuffer.popList_spec (l : List KeyboardOutput) :
    ∀ (s : KeyboardOutputBuffer) (k : Nat), s.Wf → s.contents = l →
      s.popList (l.length + k) = l ++ List.replicate k KeyboardOutput.none := by
  induction l with
  | nil =>
    intro s k hwf hc
    have he := s.contents_eq_nil hwf hc
    simpa using s.popList_empty he k
  | cons v rest ih =>
    intro s k hwf hc
    have hne : s.head ≠ EmptyMarker := by
      intro he
      have : s.contents = [] := by simp [contents, contentsOf, lenOf, he]
      rw [hc] at this
      cases this
    obtain ⟨hwf', _, hcc⟩ := s.pop_spec hwf hne
    rw [hc] at hcc
    have h1 : (s.pop).1 = v := by
      injection hcc.symm with hv _
    have h2 : (s.pop).2.contents = rest := by
      injection hcc.symm with _ hr
    have hlen : (v :: rest).length + k = (rest.length + k) + 1 := by
      simp; omega
    rw [hlen]
    simp only [popList]
    rw [h1, ih (s.pop).2 k hwf' h2, List.cons_append]

/-- C3: if a sequence of bytes is pushed into the multi-byte output buffer
from its initial (empty) state and no push encounters a full buffer, then
successive pops return exactly those bytes in push order, and every pop
after the last pushed byte returns the none sentinel.  (`size` is the
buffer capacity, a `uint8_t` template argument of the multi-byte
specialisation, so `2 ≤ size ≤ 255`; the initial slot contents `slots0`
are arbitrary.) -/
theorem outputBuffer_fifo_no_overflow (size : Nat) (slots0 : Nat → KeyboardOutput)
    (B : List Nat) (k : Nat) (h2 : 2 ≤ size) (hsz : size ≤ 255)
    (hov : (KeyboardOutputBuffer.initial size slots0).hitsOverflow
        (B.map KeyboardOutput.byte) = false) :
    ((KeyboardOutputBuffer.initial size slots0).pushAll
        (B.map KeyboardOutput.byte)).popList (B.length + k)
      = B.map KeyboardOutput.byte ++ List.replicate k KeyboardOutput.none := by
  obtain ⟨hwf0, hc0⟩ := KeyboardOutputBuffer.initial_wf size slots0 h2 hsz
  obtain ⟨hwf1, hc1⟩ :=
    KeyboardOutputBuffer.pushAll_spec (B.map KeyboardOutput.byte) _ hwf0 hov
  rw [hc0, List.nil_append] at hc1
  have hlen : B.length = (B.map KeyboardOutput.byte).length := by simp
  rw [hlen]
  exact KeyboardOutputBuffer.popList_spec (B.map KeyboardOutput.byte) _ k hwf1 hc1

/-- C3 witness: pushing 0x1C and 0x32 into a fresh capacity-2 buffer and
popping three times yields the two bytes in order followed by none. -/
theorem outputBuffer_fifo_no_overflow_witness :
    ((KeyboardOutputBuffer.initial 2 (fun _ => KeyboardOutput.byte 0)).pushAll
        ([0x1c, 0x32].map KeyboardOutput.byte)).popList (2 + 1)
      = [0x1c, 0x32].map KeyboardOutput.byte ++
          List.replicate 1 KeyboardOutput.none :=
  outputBuffer_fifo_no_overflow 2 (fun _ => KeyboardOutput.byte 0) [0x1c, 0x32] 1
    (by decide) (by decide) (by decide)

/-- The concrete C4 failing run: a fresh capacity-2 buffer receives the
bytes 1, 2, 3, 4; the third and fourth pushes find the buffer full. -/
def overflowRunC4 : KeyboardOutputBuffer :=
  (KeyboardOutputBuffer.initial 2 (fun _ => KeyboardOutput.byte 0)).pushAll
    [KeyboardOutput.byte 1, KeyboardOutput.byte 2,
     KeyboardOutput.byte 3, KeyboardOutput.byte 4]

/-- C4 evaluation: after pushing 1, 2, 3, 4 into a fresh capacity-2 buffer,
exactly two overflow diagnostics were recorded, but `head` is 2 — neither
the empty marker nor a valid index modulo the capacity — because the
overflow branch of `push` increments `head` without reducing it modulo
`Size`.  The subsequent pop therefore reads slot 2, outside the array,
instead of returning byte 3 (the start of the length-2 suffix). -/
theorem outputBuffer_overflow_head_escapes :
    overflowRunC4.overflowCount = 2 ∧
      overflowRunC4.head = 2 ∧
      overflowRunC4.head ≠ EmptyMarker ∧
      ¬ overflowRunC4.head < overflowRunC4.size ∧
      (overflowRunC4.pop).1 = overflowRunC4.slots 2 := by
  refine ⟨rfl, rfl, by decide, by decide, rfl⟩

/-- C8: the wait-loop condition of `expectResponse` over the wrapping
32-bit millisecond clock.  With `stop = (start + timeout) % 2^32`:
the loop-continuation test is exactly the disjunction
`now < stop ∨ (stop < start ∧ start ≤ now)` (first conjunct); at every
reading taken `d < timeout` milliseconds after `start` the loop continues —
in particular it does not exit immediately when `start + timeout` overflows
(second conjunct); and at the reading taken exactly `timeout` milliseconds
after `start` the loop stops (third conjunct). -/
theorem expectResponse_wait_loop (start timeout : Nat)
    (hs : start < 4294967296) (ht : timeout < 65536) :
    (∀ now, expectResponseContinues start (stopMillisOf start timeout) now = true ↔
        (now < stopMillisOf start timeout ∨
          (stopMillisOf start timeout < start ∧ start ≤ now)))
    ∧ (∀ d, d < timeout →
        expectResponseContinues start (stopMillisOf start timeout)
          ((start + d) % 4294967296) = true)
    ∧ expectResponseContinues start (stopMillisOf start timeout)
        ((start + timeout) % 4294967296) = false := by
  refine ⟨?_, ?_, ?_⟩
  · intro now
    simp [expectResponseContinues]
  · intro d hd
    simp only [expectResponseContinues, stopMillisOf, Bool.or_eq_true,
      Bool.and_eq_true, decide_eq_true_iff]
    omega
  · simp only [expectResponseContinues, stopMillisOf, Bool.or_eq_false_iff,
      Bool.and_eq_false_iff, decide_eq_false_iff_not, not_lt, not_le]
    omega

/-- C8 witness: `start = 4294967000`, `timeout = 1000` overflows the 32-bit
counter (`stop` wraps to 704); 500 ms after `start` the loop still runs,
and 1000 ms after `start` it stops. -/
theorem expectResponse_wait_loop_witness :
    expectResponseContinues 4294967000 (stopMillisOf 4294967000 1000)
        ((4294967000 + 500) % 4294967296) = true
    ∧ expectResponseContinues 4294967000 (stopMillisOf 4294967000 1000)
        ((4294967000 + 1000) % 4294967296) = false :=
  ⟨(expectResponse_wait_loop 4294967000 1000 (by decide) (by decide)).2.1 500
      (by decide),
   (expectResponse_wait_loop 4294967000 1000 (by decide) (by decide)).2.2⟩

/-- C9 evaluation: `setTypematicRateAndDelay` computes the argument byte as
`rate | (delay << 4)`, placing the delay in bits 4..5 instead of bits 5..6.
At rate 0 (fastest) and delay 1 (500 ms) the byte sent is 0x10: its low
five bits are 16, not the requested rate 0; the byte demanded by the
protocol (and the spec) would be `0 | (1 << 5) = 0x20`. -/
theorem setTypematicRateAndDelay_delay_shift_bug :
    setTypematicRateAndDelayBytes 0 1 = [0xf3, 0x10] ∧
      typematicCombined 0 1 % 32 ≠ 0 ∧
      (0 ||| (1 <<< 5)) % 256 = 0x20 := by
  refine ⟨rfl, by decide, by decide⟩

/-! The frame receiver: step lemmas for the read interrupt handler and
the characterisation of a complete 11-edge frame. -/

/-- Numeric value of one sampled bit. -/
def bitValue (b : Bool) : Nat := if b then 1 else 0

/-- LSB-first interpretation of a list of sampled data bits. -/
def byteOfBits : List Bool → Nat
  | [] => 0
  | b :: bs => bitValue b + 2 * byteOfBits bs

/-- Whether a list of sampled data bits contains an odd number of ones. -/
def oddOfBits : List Bool → Bool
  | [] => false
  | b :: bs => xor b (oddOfBits bs)

/-- The timestamp of the last edge of a sequence (default when empty). -/
def lastTimeOf (d : Nat) (es : List (Bool × Nat)) : Nat :=
  es.foldl (fun _ e => e.2) d

theorem Parity.addBit_addBit (p : Parity) (a b : Bool) :
    (p.addBit a).addBit b = p.addBit (xor a b) := by
  cases p <;> cases a <;> cases b <;> rfl

theorem Parity.addBit_false (p : Parity) : p.addBit false = p := rfl

/-- Setting a bit above all bits already accumulated is an addition, and the
`uint8_t` store does not truncate (data bits occupy bits 0..7 only). -/
theorem lor_pow_bound : ∀ k, k < 8 → ∀ a, a < 2 ^ k →
    (a ||| (1 <<< k)) % 256 = a + 2 ^ k := by decide

/-- The read interrupt handler at a data-bit edge (counter 1..8). -/
theorem readInterruptHandler_data (b : Bool) (now : Nat) (s : KbState) (j : Nat)
    (hj : s.bitCounter = j) (h1 : 1 ≤ j) (h8 : j ≤ 8) :
    readInterruptHandler b now s =
      { s with ioByte := if b then (s.ioByte ||| (1 <<< (j - 1))) % 256 else s.ioByte,
               parity := s.parity.addBit b,
               bitCounter := j + 1,
               lastReadInterruptMicroseconds := now } := by
  obtain ⟨io, bc, ft, lr, par, fe, buf, d1, d2, d3, d4, d5, d6, d7, sb⟩ := s
  simp only at hj
  subst hj
  interval_cases bc <;> cases b <;> rfl

/-- The read interrupt handler at the start-bit edge (counter 0). -/
theorem readInterruptHandler_start (b : Bool) (now : Nat) (s : KbState)
    (hj : s.bitCounter = 0) :
    readInterruptHandler b now s =
      if b then
        { s with diagPacketDidNotStartWithZero := s.diagPacketDidNotStartWithZero + 1,
                 receivedHasFramingError := true,
                 failureTimeMicroseconds := now,
                 bitCounter := 1, parity := Parity.even,
                 lastReadInterruptMicroseconds := now }
      else
        { s with receivedHasFramingError := false,
                 bitCounter := 1, parity := Parity.even,
                 lastReadInterruptMicroseconds := now } := by
  obtain ⟨io, bc, ft, lr, par, fe, buf, d1, d2, d3, d4, d5, d6, d7, sb⟩ := s
  simp only at hj
  subst hj
  cases b <;> rfl

/-- The read interrupt handler at the parity-bit edge (counter 9). -/
theorem readInterruptHandler_parity (b : Bool) (now : Nat) (s : KbState)
    (hj : s.bitCounter = 9) :
    readInterruptHandler b now s =
      if s.parity = Parity.ofPin b then
        { s with bitCounter := 10, lastReadInterruptMicroseconds := now }
      else
        { s with diagParityError := s.diagParityError + 1,
                 receivedHasFramingError := true,
                 failureTimeMicroseconds := now,
                 bitCounter := 10, lastReadInterruptMicroseconds := now } := by
  obtain ⟨io, bc, ft, lr, par, fe, buf, d1, d2, d3, d4, d5, d6, d7, sb⟩ := s
  simp only at hj
  subst hj
  by_cases hp : par = Parity.ofPin b <;>
    simp [readInterruptHandler, hp]

/-- The read interrupt handler at the stop-bit edge (counter 10): a low stop
bit latches the framing error; the accumulated byte is pushed exactly when
no framing error is latched after that check; counter and accumulator are
reset. -/
theorem readInterruptHandler_stop (b : Bool) (now : Nat) (s : KbState)
    (hj : s.bitCounter = 10) :
    readInterruptHandler b now s =
      if b then
        (if s.receivedHasFramingError = false then
          { s with diagReceivedBytes := s.ioByte :: s.diagReceivedBytes,
                   inputBuffer := s.inputBuffer.push (KeyboardOutput.byte s.ioByte),
                   bitCounter := 0, ioByte := 0,
                   lastReadInterruptMicroseconds := now }
        else
          { s with bitCounter := 0, ioByte := 0,
                   lastReadInterruptMicroseconds := now })
      else
        { s with diagPacketDidNotEndWithOne := s.diagPacketDidNotEndWithOne + 1,
                 receivedHasFramingError := true,
                 failureTimeMicroseconds := now,
                 bitCounter := 0, ioByte := 0,
                 lastReadInterruptMicroseconds := now } := by
  obtain ⟨io, bc, ft, lr, par, fe, buf, d1, d2, d3, d4, d5, d6, d7, sb⟩ := s
  simp only at hj
  subst hj
  cases b <;> cases fe <;> rfl

/-- Effect of the read interrupt handler over a block of consecutive
data-bit edges starting at counter `j`: the sampled bits are accumulated
LSB-first above the bits already present, the running parity absorbs them,
the counter advances once per edge, and the framing flag, failure timestamp
and buffer are untouched. -/
theorem runEdges_data (es : List (Bool × Nat)) :
    ∀ (s : KbState) (j : Nat), s.bitCounter = j → 1 ≤ j → j + es.length ≤ 9 →
      s.ioByte < 2 ^ (j - 1) →
      (runEdges s es).ioByte = s.ioByte + byteOfBits (es.map Prod.fst) * 2 ^ (j - 1)
      ∧ (runEdges s es).parity = s.parity.addBit (oddOfBits (es.map Prod.fst))
      ∧ (runEdges s es).bitCounter = j + es.length
      ∧ (runEdges s es).receivedHasFramingError = s.receivedHasFramingError
      ∧ (runEdges s es).failureTimeMicroseconds = s.failureTimeMicroseconds
      ∧ (runEdges s es).inputBuffer = s.inputBuffer := by
  induction es with
  | nil =>
    intro s j hj h1 h9 hio
    simp [runEdges, byteOfBits, oddOfBits, Parity.addBit_false, hj]
  | cons e rest ih =>
    obtain ⟨b, t⟩ := e
    intro s j hj h1 h9 hio
    simp only [List.length_cons] at h9
    have hrw : runEdges s ((b, t) :: rest) =
        runEdges (readInterruptHandler b t s) rest := rfl
    have hstep := readInterruptHandler_data b t s j hj h1 (by omega)
    have hpow : 2 ^ j = 2 ^ (j - 1) * 2 := by
      rw [show j = (j - 1) + 1 by omega, pow_succ]
      simp
    have hio' : (readInterruptHandler b t s).ioByte =
        s.ioByte + bitValue b * 2 ^ (j - 1) := by
      rw [hstep]
      show (if b = true then (s.ioByte ||| 1 <<< (j - 1)) % 256 else s.ioByte)
          = s.ioByte + bitValue b * 2 ^ (j - 1)
      cases b
      · rw [if_neg (by decide)]
        simp [bitValue]
      · rw [if_pos rfl, lor_pow_bound (j - 1) (by omega) s.ioByte hio]
        simp [bitValue]
    have hlt' : (readInterruptHandler b t s).ioByte < 2 ^ ((j + 1) - 1) := by
      rw [hio', Nat.add_sub_cancel, hpow]
      have hbv : bitValue b * 2 ^ (j - 1) ≤ 2 ^ (j - 1) := by
        cases b <;> simp [bitValue]
      omega
    have hbc' : (readInterruptHandler b t s).bitCounter = j + 1 := by
      rw [hstep]
    obtain ⟨e1, e2, e3, e4, e5, e6⟩ :=
      ih (readInterruptHandler b t s) (j + 1) hbc' (by omega) (by omega) hlt'
    rw [hrw]
    refine ⟨?_, ?_, ?_, ?_, ?_, ?_⟩
    · rw [e1, hio', Nat.add_sub_cancel, hpow]
      simp only [List.map_cons, byteOfBits]
      ring
    · rw [e2, hstep]
      show (s.parity.addBit b).addBit (oddOfBits (List.map Prod.fst rest)) =
          s.parity.addBit (oddOfBits (List.map Prod.fst ((b, t) :: rest)))
      rw [Parity.addBit_addBit]
      simp [oddOfBits]
    · rw [e3]
      simp only [List.length_cons]
      omega
    · rw [e4, hstep]
    · rw [e5, hstep]
    · rw [e6, hstep]

/-- Field-level description of the start-bit edge: the counter advances to
1, the parity resets to even, the framing flag becomes the (bad) start-bit
value, the failure timestamp is overwritten exactly when the start bit was
bad, and accumulator and buffer are untouched. -/
theorem readInterruptHandler_start_fields (b : Bool) (now : Nat) (s : KbState)
    (hj : s.bitCounter = 0) :
    (readInterruptHandler b now s).bitCounter = 1
    ∧ (readInterruptHandler b now s).ioByte = s.ioByte
    ∧ (readInterruptHandler b now s).parity = Parity.even
    ∧ (readInterruptHandler b now s).receivedHasFramingError = b
    ∧ (readInterruptHandler b now s).failureTimeMicroseconds =
        (if b then now else s.failureTimeMicroseconds)
    ∧ (readInterruptHandler b now s).inputBuffer = s.inputBuffer := by
  rw [readInterruptHandler_start b now s hj]
  cases b <;> simp

/-- Field-level description of the parity-bit edge: the counter advances to
10; on a mismatch the framing flag latches and the failure timestamp is
overwritten; accumulator, parity and buffer are untouched. -/
theorem readInterruptHandler_parity_fields (b : Bool) (now : Nat) (s : KbState)
    (hj : s.bitCounter = 9) :
    (readInterruptHandler b now s).bitCounter = 10
    ∧ (readInterruptHandler b now s).ioByte = s.ioByte
    ∧ (readInterruptHandler b now s).receivedHasFramingError =
        (if s.parity = Parity.ofPin b then s.receivedHasFramingError else true)
    ∧ (readInterruptHandler b now s).failureTimeMicroseconds =
        (if s.parity = Parity.ofPin b then s.failureTimeMicroseconds else now)
    ∧ (readInterruptHandler b now s).inputBuffer = s.inputBuffer := by
  rw [readInterruptHandler_parity b now s hj]
  by_cases hp : s.parity = Parity.ofPin b <;> simp [hp]

/-- Field-level description of the stop-bit edge: counter and accumulator
reset; a low stop bit latches the framing flag and overwrites the failure
timestamp; the accumulated byte is pushed exactly when the stop bit is high
and no framing error was latched. -/
theorem readInterruptHandler_stop_fields (b : Bool) (now : Nat) (s : KbState)
    (hj : s.bitCounter = 10) :
    (readInterruptHandler b now s).bitCounter = 0
    ∧ (readInterruptHandler b now s).ioByte = 0
    ∧ (readInterruptHandler b now s).receivedHasFramingError =
        (if b then s.receivedHasFramingError else true)
    ∧ (readInterruptHandler b now s).failureTimeMicroseconds =
        (if b then s.failureTimeMicroseconds else now)
    ∧ (readInterruptHandler b now s).inputBuffer =
        (if b = true ∧ s.receivedHasFramingError = false then
          s.inputBuffer.push (KeyboardOutput.byte s.ioByte)
        else s.inputBuffer) := by
  rw [readInterruptHandler_stop b now s hj]
  cases b <;> cases hfe : s.receivedHasFramingError <;> simp [hfe]

/-- Characterisation of one complete 11-edge frame processed by the read
interrupt handler, starting at counter 0 with an empty accumulator:
`b0`/`t0` are the start-bit sample and timestamp, `ds` the eight data-bit
edges, `b9`/`t9` the parity-bit edge and `b10`/`t10` the stop-bit edge.
The frame is accepted exactly when the start bit is 0, the running parity
matches the sampled parity bit, and the stop bit is 1; an accepted frame
pushes the LSB-first assembled data byte, a rejected frame pushes nothing,
latches the framing flag and records the failure timestamp of the last
failing check. -/
theorem runEdges_frame (s : KbState) (b0 : Bool) (t0 : Nat) (ds : List (Bool × Nat))
    (b9 : Bool) (t9 : Nat) (b10 : Bool) (t10 : Nat)
    (h8 : ds.length = 8) (hbc : s.bitCounter = 0) (hio : s.ioByte = 0) :
    (runEdges s ((b0, t0) :: (ds ++ [(b9, t9), (b10, t10)]))).bitCounter = 0
    ∧ (runEdges s ((b0, t0) :: (ds ++ [(b9, t9), (b10, t10)]))).ioByte = 0
    ∧ (runEdges s ((b0, t0) :: (ds ++ [(b9, t9), (b10, t10)]))).inputBuffer =
        (if b0 = false ∧ Parity.even.addBit (oddOfBits (ds.map Prod.fst)) =
              Parity.ofPin b9 ∧ b10 = true then
          s.inputBuffer.push (KeyboardOutput.byte (byteOfBits (ds.map Prod.fst)))
        else s.inputBuffer)
    ∧ (runEdges s ((b0, t0) :: (ds ++ [(b9, t9), (b10, t10)]))).receivedHasFramingError =
        (if b0 = false ∧ Parity.even.addBit (oddOfBits (ds.map Prod.fst)) =
              Parity.ofPin b9 ∧ b10 = true then false else true)
    ∧ (runEdges s ((b0, t0) :: (ds ++ [(b9, t9), (b10, t10)]))).failureTimeMicroseconds =
        (if b10 = false then t10
         else if Parity.even.addBit (oddOfBits (ds.map Prod.fst)) ≠ Parity.ofPin b9 then t9
         else if b0 = true then t0
         else s.failureTimeMicroseconds) := by
  have hsplit : runEdges s ((b0, t0) :: (ds ++ [(b9, t9), (b10, t10)])) =
      readInterruptHandler b10 t10 (readInterruptHandler b9 t9
        (runEdges (readInterruptHandler b0 t0 s) ds)) := by
    simp [runEdges, List.foldl_append]
  obtain ⟨f1, f2, f3, f4, f5, f6⟩ := readInterruptHandler_start_fields b0 t0 s hbc
  obtain ⟨d1, d2, d3, d4, d5, d6⟩ :=
    runEdges_data ds (readInterruptHandler b0 t0 s) 1 f1 (by omega) (by omega)
      (by rw [f2, hio]; decide)
  rw [f2, hio, Nat.zero_add] at d1
  rw [f3] at d2
  obtain ⟨p1, p2, p3, p4, p5⟩ :=
    readInterruptHandler_parity_fields b9 t9
      (runEdges (readInterruptHandler b0 t0 s) ds) (by rw [d3, h8])
  obtain ⟨q1, q2, q3, q4, q5⟩ :=
    readInterruptHandler_stop_fields b10 t10
      (readInterruptHandler b9 t9 (runEdges (readInterruptHandler b0 t0 s) ds)) p1
  rw [hsplit]
  rw [d2] at p3 p4
  refine ⟨q1, q2, ?_, ?_, ?_⟩
  · rw [q5, p3, p2, d1, d4, f4, p5, d6, f6]
    simp only [pow_zero, mul_one, Nat.sub_self]
    cases b0 <;> cases b10 <;>
      by_cases hp : Parity.even.addBit (oddOfBits (ds.map Prod.fst)) = Parity.ofPin b9 <;>
      simp [hp]
  · rw [q3, p3, d4, f4]
    cases b0 <;> cases b10 <;>
      by_cases hp : Parity.even.addBit (oddOfBits (ds.map Prod.fst)) = Parity.ofPin b9 <;>
      simp [hp]
  · rw [q4, p4, d5, f5]
    cases b0 <;> cases b10 <;>
      by_cases hp : Parity.even.addBit (oddOfBits (ds.map Prod.fst)) = Parity.ofPin b9 <;>
      simp [hp]

theorem oddOfBits_iff (bs : List Bool) :
    oddOfBits bs = true ↔ bs.count true % 2 = 1 := by
  induction bs with
  | nil => simp [oddOfBits]
  | cons b bs ih =>
    cases b
    · simpa [oddOfBits, List.count_cons] using ih
    · cases hob : oddOfBits bs
      · have h0 : ¬ bs.count true % 2 = 1 := by
          rw [← ih, hob]; simp
        simp [oddOfBits, hob, List.count_cons]
        omega
      · have h1 : bs.count true % 2 = 1 := ih.mp hob
        simp [oddOfBits, hob, List.count_cons]
        omega

/-- The parity check of the read interrupt handler succeeds exactly when the
count of ones across the eight data bits plus the sampled parity bit is
odd. -/
theorem parity_check_iff (bs : List Bool) (b9 : Bool) :
    Parity.even.addBit (oddOfBits bs) = Parity.ofPin b9 ↔
      (bs.count true + bitValue b9) % 2 = 1 := by
  have hodd := oddOfBits_iff bs
  cases hob : oddOfBits bs <;> rw [hob] at hodd <;> cases b9 <;>
    simp_all [Parity.addBit, Parity.ofPin, bitValue] <;> omega

/-- C1: for a complete 11-edge frame sampled by the read interrupt handler
from the idle receiver state (counter 0, accumulator 0), if the start bit
is 0, the parity bit makes the count of ones over the eight data bits plus
parity odd, and the stop bit is 1, then the byte pushed to the output
buffer at the stop-bit edge is exactly the eight sampled data bits
interpreted LSB-first. -/
theorem readInterruptHandler_good_frame (s : KbState) (b0 : Bool) (t0 : Nat)
    (ds : List (Bool × Nat)) (b9 : Bool) (t9 : Nat) (b10 : Bool) (t10 : Nat)
    (h8 : ds.length = 8) (hbc : s.bitCounter = 0) (hio : s.ioByte = 0)
    (hstart : b0 = false)
    (hparity : ((ds.map Prod.fst).count true + bitValue b9) % 2 = 1)
    (hstop : b10 = true) :
    (runEdges s ((b0, t0) :: (ds ++ [(b9, t9), (b10, t10)]))).inputBuffer =
      s.inputBuffer.push (KeyboardOutput.byte (byteOfBits (ds.map Prod.fst))) := by
  obtain ⟨-, -, hbuf, -, -⟩ := runEdges_frame s b0 t0 ds b9 t9 b10 t10 h8 hbc hio
  rw [hbuf,
    if_pos ⟨hstart, (parity_check_iff (ds.map Prod.fst) b9).mpr hparity, hstop⟩]

/-- C2: for a complete 11-edge frame in which the start bit is not 0, or the
parity bit does not match odd parity over the eight data bits, or the stop
bit is not 1, the read interrupt handler pushes nothing, leaves the
framing-error flag set, and records as failure timestamp the `micros()`
reading taken at the (last) failing edge: the stop edge when the stop bit
failed, otherwise the parity edge when the parity check failed, otherwise
the start edge. -/
theorem readInterruptHandler_bad_frame (s : KbState) (b0 : Bool) (t0 : Nat)
    (ds : List (Bool × Nat)) (b9 : Bool) (t9 : Nat) (b10 : Bool) (t10 : Nat)
    (h8 : ds.length = 8) (hbc : s.bitCounter = 0) (hio : s.ioByte = 0)
    (hfail : b0 = true ∨ ((ds.map Prod.fst).count true + bitValue b9) % 2 ≠ 1 ∨
      b10 = false) :
    (runEdges s ((b0, t0) :: (ds ++ [(b9, t9), (b10, t10)]))).inputBuffer =
        s.inputBuffer
    ∧ (runEdges s ((b0, t0) :: (ds ++ [(b9, t9), (b10, t10)]))).receivedHasFramingError
        = true
    ∧ (runEdges s ((b0, t0) :: (ds ++ [(b9, t9), (b10, t10)]))).failureTimeMicroseconds
        = (if b10 = false then t10
           else if ((ds.map Prod.fst).count true + bitValue b9) % 2 ≠ 1 then t9
           else t0) := by
  obtain ⟨-, -, hbuf, hfe, hft⟩ := runEdges_frame s b0 t0 ds b9 t9 b10 t10 h8 hbc hio
  have hpiff := parity_check_iff (ds.map Prod.fst) b9
  have hok : ¬(b0 = false ∧ Parity.even.addBit (oddOfBits (ds.map Prod.fst)) =
      Parity.ofPin b9 ∧ b10 = true) := by
    rintro ⟨ha, hb, hc⟩
    rcases hfail with h | h | h
    · rw [ha] at h; cases h
    · exact h (hpiff.mp hb)
    · rw [hc] at h; cases h
  refine ⟨by rw [hbuf, if_neg hok], by rw [hfe, if_neg hok], ?_⟩
  rw [hft]
  by_cases h10 : b10 = false
  · rw [if_pos h10, if_pos h10]
  · rw [if_neg h10, if_neg h10]
    by_cases hp : Parity.even.addBit (oddOfBits (ds.map Prod.fst)) = Parity.ofPin b9
    · have hp1 := hpiff.mp hp
      have hb0 : b0 = true := by
        rcases hfail with h | h | h
        · exact h
        · exact absurd hp1 h
        · exact absurd h h10
      rw [if_neg (not_not_intro hp), if_pos hb0, if_neg (not_not_intro hp1)]
    · rw [if_pos hp, if_pos (fun hcontra => hp (hpiff.mpr hcontra))]

/-- An idle keyboard state: receiver at counter 0 with empty accumulator,
empty capacity-16 buffer. -/
def kbIdle : KbState :=
  { ioByte := 0, bitCounter := 0, failureTimeMicroseconds := 0,
    lastReadInterruptMicroseconds := 0, parity := Parity.even,
    receivedHasFramingError := false,
    inputBuffer := KeyboardOutputBuffer.initial 16 (fun _ => KeyboardOutput.byte 0),
    diagPacketDidNotStartWithZero := 0, diagParityError := 0,
    diagPacketDidNotEndWithOne := 0, diagClockLineGlitch := [],
    diagStartupFailure := 0, diagReceivedBytes := [], diagSentBytes := [],
    sentBytes := [] }

/-- C1 witness: the frame 0, 00111000, 0, 1 (data LSB first, three ones, so
parity bit 0 keeps the nine-bit count odd) assembles and pushes 0x1C. -/
theorem readInterruptHandler_good_frame_witness :
    (runEdges kbIdle ((false, 0) ::
        ([(false, 1), (false, 2), (true, 3), (true, 4), (true, 5),
          (false, 6), (false, 7), (false, 8)] ++ [(false, 9), (true, 10)]))).inputBuffer
      = kbIdle.inputBuffer.push (KeyboardOutput.byte 28) :=
  readInterruptHandler_good_frame kbIdle false 0
    [(false, 1), (false, 2), (true, 3), (true, 4), (true, 5),
     (false, 6), (false, 7), (false, 8)] false 9 true 10
    rfl rfl rfl rfl (by decide) rfl

/-- C2 witness: a frame whose parity bit is wrong (one data one, parity bit
1 makes the nine-bit count even): nothing is pushed, the framing-error flag
is set, and the failure timestamp is the parity edge's reading 109. -/
theorem readInterruptHandler_bad_frame_witness :
    (runEdges kbIdle ((false, 100) ::
        ([(true, 101), (false, 102), (false, 103), (false, 104), (false, 105),
          (false, 106), (false, 107), (false, 108)] ++ [(true, 109), (true, 110)]))).inputBuffer
      = kbIdle.inputBuffer
    ∧ (runEdges kbIdle ((false, 100) ::
        ([(true, 101), (false, 102), (false, 103), (false, 104), (false, 105),
          (false, 106), (false, 107), (false, 108)] ++ [(true, 109), (true, 110)]))).receivedHasFramingError
      = true
    ∧ (runEdges kbIdle ((false, 100) ::
        ([(true, 101), (false, 102), (false, 103), (false, 104), (false, 105),
          (false, 106), (false, 107), (false, 108)] ++ [(true, 109), (true, 110)]))).failureTimeMicroseconds
      = 109 :=
  readInterruptHandler_bad_frame kbIdle false 100
    [(true, 101), (false, 102), (false, 103), (false, 104), (false, 105),
     (false, 106), (false, 107), (false, 108)] true 109 true 110
    rfl rfl rfl (Or.inr (Or.inl (by decide)))

/-- One handler step preserves the receiver invariant: the bit counter stays
in 0..10 and a zero counter implies an empty accumulator. -/
theorem readInterruptHandler_inv (b : Bool) (t : Nat) (s : KbState)
    (h1 : s.bitCounter ≤ 10) (h2 : s.bitCounter = 0 → s.ioByte = 0) :
    (readInterruptHandler b t s).bitCounter ≤ 10
    ∧ ((readInterruptHandler b t s).bitCounter = 0 →
        (readInterruptHandler b t s).ioByte = 0) := by
  obtain ⟨io, bc, ft, lr, par, fe, buf, d1, d2, d3, d4, d5, d6, d7, sb⟩ := s
  simp only at h1 h2
  interval_cases bc <;> cases b <;>
    simp_all [readInterruptHandler] <;> split_ifs <;> simp_all

theorem runEdges_inv (edges : List (Bool × Nat)) :
    ∀ u : KbState, u.bitCounter ≤ 10 → (u.bitCounter = 0 → u.ioByte = 0) →
      (runEdges u edges).bitCounter ≤ 10
      ∧ ((runEdges u edges).bitCounter = 0 → (runEdges u edges).ioByte = 0) := by
  induction edges with
  | nil => intro u h1 h2; exact ⟨h1, h2⟩
  | cons e rest ih =>
    intro u h1 h2
    obtain ⟨g1, g2⟩ := readInterruptHandler_inv e.1 e.2 u h1 h2
    exact ih (readInterruptHandler e.1 e.2 u) g1 g2

/-- C10: starting from the re-armed receiver state produced by
`enableReadInterrupts`, every sequence of read-interrupt steps keeps the
bit counter in 0..10, and whenever the bit counter is 0 the byte
accumulator is 0 — so the counter value inspected by the foreground
recovery test always lies in 0..10. -/
theorem receiver_invariant (s : KbState) (edges : List (Bool × Nat)) :
    (runEdges (enableReadInterrupts s) edges).bitCounter ≤ 10
    ∧ ((runEdges (enableReadInterrupts s) edges).bitCounter = 0 →
        (runEdges (enableReadInterrupts s) edges).ioByte = 0) :=
  runEdges_inv edges (enableReadInterrupts s) (by simp [enableReadInterrupts])
    (fun _ => by simp [enableReadInterrupts])

/-- C5 (amended): recovery behaviour of `readScanCode` when the buffer is
empty and the framing-error flag is set.  The code's settling test is the
`uint32_t` comparison `failureTimeMicroseconds + 200 > micros()`; when it
holds, the call returns none and changes nothing; otherwise with the bit
counter above 3 it hands the resend command 0xFE to the direction switcher
and returns garbled; otherwise it records a clock-glitch diagnostic with
the current bit counter, clears the framing flag, resets counter,
accumulator and parity, and returns garbled. -/
theorem readScanCode_framing_recovery (s : KbState) (nowMicros : Nat)
    (hempty : s.inputBuffer.head = EmptyMarker)
    (hfe : s.receivedHasFramingError = true) :
    ((s.failureTimeMicroseconds + 200) % 4294967296 > nowMicros →
      readScanCode nowMicros s = (KeyboardOutput.none, s))
    ∧ (¬ (s.failureTimeMicroseconds + 200) % 4294967296 > nowMicros →
        s.bitCounter > 3 →
        readScanCode nowMicros s = (KeyboardOutput.garbled, sendNack s)
        ∧ (sendNack s).sentBytes = 0xfe :: s.sentBytes)
    ∧ (¬ (s.failureTimeMicroseconds + 200) % 4294967296 > nowMicros →
        ¬ s.bitCounter > 3 →
        readScanCode nowMicros s = (KeyboardOutput.garbled,
          { s with diagClockLineGlitch := s.bitCounter :: s.diagClockLineGlitch,
                   receivedHasFramingError := false, bitCounter := 0, ioByte := 0,
                   parity := Parity.even })) := by
  obtain ⟨io, bc, ft, lr, par, fe, buf, d1, d2, d3, d4, d5, d6, d7, sb⟩ := s
  simp only at hempty hfe
  subst hfe
  refine ⟨?_, ?_, ?_⟩
  · intro hlt
    simp only [readScanCode, KeyboardOutputBuffer.pop, if_pos hempty]
    simp only at hlt ⊢
    rw [if_pos (by simp), if_pos hlt]
  · intro hge hbc
    simp only at hge hbc
    constructor
    · simp only [readScanCode, KeyboardOutputBuffer.pop, if_pos hempty]
      rw [if_pos (by simp), if_neg hge, if_pos hbc]
    · rfl
  · intro hge hbc
    simp only at hge hbc
    simp only [readScanCode, KeyboardOutputBuffer.pop, if_pos hempty]
    rw [if_pos (by simp), if_neg hge, if_neg hbc]

/-- A state in which the buffer is empty, the framing-error flag is set,
and the failure was recorded 50 microseconds before the present reading,
but near the top of the 32-bit microsecond counter: failure at
2^32 - 100, current reading 2^32 - 50; the receiver had reached bit 10. -/
def kbC5 : KbState :=
  { kbIdle with receivedHasFramingError := true,
                failureTimeMicroseconds := 4294967196,
                bitCounter := 10 }

/-- C5 counterexample: only 50 microseconds (fewer than 200) have elapsed
since the recorded failure, yet `readScanCode` does not return none — the
`uint32_t` sum `failureTime + 200` wrapped to 100, the comparison
`100 > 4294967246` fails, and the call proceeds to recovery, returning
garbled. -/
theorem readScanCode_settling_wrap_counterexample :
    (kbC5.inputBuffer.pop).1 = KeyboardOutput.none
    ∧ kbC5.receivedHasFramingError = true
    ∧ kbC5.failureTimeMicroseconds ≤ 4294967246
    ∧ 4294967246 - kbC5.failureTimeMicroseconds < 200
    ∧ (readScanCode 4294967246 kbC5).1 = KeyboardOutput.garbled := by
  refine ⟨rfl, rfl, by decide, by decide, rfl⟩

/-- C5 witness: at the same state, the code's own settling test has already
expired and the bit counter is 10 > 3, so the call transmits the resend
command 0xFE through the direction switcher and returns garbled. -/
theorem readScanCode_framing_recovery_witness :
    readScanCode 4294967246 kbC5 = (KeyboardOutput.garbled, sendNack kbC5)
    ∧ (sendNack kbC5).sentBytes = 0xfe :: kbC5.sentBytes :=
  (readScanCode_framing_recovery kbC5 4294967246 rfl rfl).2.1 (by decide) (by decide)

/-- C6: when the first pop of `readScanCode` yields the self-test-passed
byte 0xAA or the self-test-failed byte 0xFC, the sentinel is consumed, a
startup-failure diagnostic is recorded exactly in the 0xFC case, and the
call returns the next queued byte instead (the none sentinel when the
buffer is then empty). -/
theorem readScanCode_swallows_bat (s : KbState) (nowMicros : Nat)
    (h : (s.inputBuffer.pop).1 = KeyboardOutput.byte 0xaa ∨
      (s.inputBuffer.pop).1 = KeyboardOutput.byte 0xfc) :
    readScanCode nowMicros s =
      (((s.inputBuffer.pop).2.pop).1,
       { s with inputBuffer := ((s.inputBuffer.pop).2.pop).2,
                diagStartupFailure := s.diagStartupFailure +
                  (if (s.inputBuffer.pop).1 = KeyboardOutput.byte 0xfc
                   then 1 else 0) }) := by
  obtain ⟨io, bc, ft, lr, par, fe, buf, d1, d2, d3, d4, d5, d6, d7, sb⟩ := s
  simp only at h ⊢
  rcases h with h | h <;>
    simp [readScanCode, h]

/-- A state whose buffer holds the self-test-failed byte 0xFC followed by
the scan code 0x1C. -/
def kbC6 : KbState :=
  { kbIdle with inputBuffer :=
      { size := 2, head := 0, tail := 0,
        slots := fun i => if i = 0 then KeyboardOutput.byte 0xfc
                          else KeyboardOutput.byte 0x1c,
        overflowCount := 0 } }

/-- C6 witness: popping past the queued 0xFC returns 0x1C and records one
startup-failure diagnostic. -/
theorem readScanCode_swallows_bat_witness :
    (readScanCode 0 kbC6).1 = KeyboardOutput.byte 0x1c
    ∧ (readScanCode 0 kbC6).2.diagStartupFailure = 1 := by
  rw [readScanCode_swallows_bat kbC6 0 (Or.inr (by decide))]
  exact ⟨by decide, by decide⟩

/-- A state whose buffer holds two consecutive self-test-passed bytes. -/
def kbC7 : KbState :=
  { kbIdle with inputBuffer :=
      { size := 2, head := 0, tail := 0,
        slots := fun _ => KeyboardOutput.byte 0xaa,
        overflowCount := 0 } }

/-- C7 counterexample: with two self-test-passed sentinels queued
consecutively, `readScanCode` consumes the first and returns the second —
the returned value is the sentinel 0xAA, contradicting the claim that the
sentinels are never returned for every buffer state. -/
theorem readScanCode_returns_bat_counterexample :
    kbC7.inputBuffer.contents =
        [KeyboardOutput.byte 0xaa, KeyboardOutput.byte 0xaa]
    ∧ (readScanCode 0 kbC7).1 = KeyboardOutput.byte 0xaa := by
  exact ⟨by decide, rfl⟩

/-- C7 (amended): `readScanCode` returns a self-test sentinel (0xAA or
0xFC) only when the byte it popped first was itself such a sentinel and
the immediately following queued byte — which the call returns — is one
too; a single leading sentinel is always consumed and never propagated. -/
theorem readScanCode_bat_only_when_consecutive (s : KbState) (nowMicros : Nat)
    (h : (readScanCode nowMicros s).1 = KeyboardOutput.byte 0xaa ∨
      (readScanCode nowMicros s).1 = KeyboardOutput.byte 0xfc) :
    ((s.inputBuffer.pop).1 = KeyboardOutput.byte 0xaa ∨
      (s.inputBuffer.pop).1 = KeyboardOutput.byte 0xfc)
    ∧ ((s.inputBuffer.pop).2.pop).1 = (readScanCode nowMicros s).1 := by
  rcases hcode : (s.inputBuffer.pop).1 with _ | _ | b
  · exfalso
    simp only [readScanCode, hcode] at h
    split_ifs at h <;> simp_all
  · exfalso
    simp only [readScanCode, hcode] at h
    split_ifs at h <;> simp_all
  · by_cases haa : b = 0xaa
    · subst haa
      refine ⟨Or.inl rfl, ?_⟩
      simp [readScanCode, hcode]
    · by_cases hfc : b = 0xfc
      · subst hfc
        refine ⟨Or.inr rfl, ?_⟩
        simp [readScanCode, hcode]
      · exfalso
        simp only [readScanCode, hcode] at h
        split_ifs at h <;> simp_all

/-- C7 amended-claim witness at the two-sentinel state: the first popped
byte is a sentinel and the returned value equals the second queued byte. -/
theorem readScanCode_bat_only_when_consecutive_witness :
    ((kbC7.inputBuffer.pop).1 = KeyboardOutput.byte 0xaa ∨
      (kbC7.inputBuffer.pop).1 = KeyboardOutput.byte 0xfc)
    ∧ ((kbC7.inputBuffer.pop).2.pop).1 = (readScanCode 0 kbC7).1 :=
  readScanCode_bat_only_when_consecutive kbC7 0 (Or.inl rfl)
